import Mathlib

/-!
Shallow embedding of the replication-pipeline core of `corro-agent/src/agent.rs`:
the per-actor version bookkeeping, the change ingestor (`process_single_version`),
the buffered-change promoter (`process_fully_buffered_changes`), the compactor
(`compact_booked_for_actor` and its surrounding per-actor run step), the broadcast
dispatcher check (`handle_broadcast`), the sync-client peer choice and status
handling (`handle_sync` / `sync_loop`), and the startup reconstruction of partial
versions (`setup`).

Machine integers (`i64`) are modelled as `Int` (no arithmetic in the modelled code
can overflow: only comparisons and `+ 1` on sequence bounds occur). Actor ids
(128-bit UUIDs) are modelled as `Nat`. Fallible storage-engine calls are modelled
by an explicit engine oracle returning `Except SqlError _`; a storage transaction
is a pure function on the SQL-side state that is only "committed" (adopted) when
every operation inside it succeeded, mirroring rusqlite's rollback-on-drop.
-/

/-- Errors surfaced by storage-engine calls (rusqlite errors, abstracted). -/
inductive SqlError
  | busy
  | failed
deriving DecidableEq, Repr

/-- `corro_types::agent::ChangeError`, abstracted to the cases the agent code
can actually produce in the modelled paths. -/
inductive ChangeError
  | storage (e : SqlError)
deriving DecidableEq, Repr

/-! ## Range sets (`rangemap::RangeInclusiveSet<i64>`)

Represented as a list of inclusive ranges `(lo, hi)` kept sorted, disjoint and
non-adjacent (adjacent integer ranges are coalesced on insert, as `rangemap`
does for `i64` via `StepLite`). -/

/-- A set of `i64` values stored as coalesced inclusive ranges. -/
abbrev RangeSet := List (Int × Int)

/-- Insert an inclusive range, coalescing with overlapping or adjacent ranges,
mirroring `RangeInclusiveSet::insert`. Assumes (and preserves) the sorted,
disjoint, non-adjacent representation. -/
def rsInsert (r : Int × Int) : RangeSet → RangeSet
  | [] => [r]
  | (a, b) :: rest =>
    if r.2 + 1 < a then
      r :: (a, b) :: rest
    else if b + 1 < r.1 then
      (a, b) :: rsInsert r rest
    else
      rsInsert (min a r.1, max b r.2) rest

/-- Number of maximal uncovered sub-ranges of `lo..=hi`, mirroring
`RangeInclusiveSet::gaps(..).count()`. Assumes the sorted, disjoint
representation maintained by `rsInsert`. -/
def rsGapsCount (s : RangeSet) (lo hi : Int) : Nat :=
  match s with
  | [] => if lo ≤ hi then 1 else 0
  | (a, b) :: rest =>
    if hi < lo then 0
    else if b < lo then rsGapsCount rest lo hi
    else if hi < a then 1
    else (if lo < a then 1 else 0) + rsGapsCount rest (b + 1) hi

/-- Membership in a range set (coverage semantics). -/
def rsMem (x : Int) (s : RangeSet) : Bool :=
  s.any (fun r => r.1 ≤ x && x ≤ r.2)

/-! ## In-memory bookkeeping (`corro_types::agent::BookedVersions` / `Bookie`) -/

/-- `KnownDbVersion`: the receiver's knowledge of one `(actor, version)`.
The `Partial` variant of the source is named `Partl` here. -/
inductive KnownDbVersion
  | Current (db_version last_seq ts : Int)
  | Partl (seqs : RangeSet) (last_seq ts : Int)
  | Cleared
deriving DecidableEq, Repr

/-- Per-actor in-memory bookkeeping. The source stores a
`RangeInclusiveMap<i64, KnownDbVersion>`; semantically (spec §3 invariant 2:
a version appears in at most one range) it is a partial map from version to
`KnownDbVersion`, which is how it is modelled: an association list where the
most recent insertion wins. -/
abbrev BookedVersions := List (Int × KnownDbVersion)

/-- Lookup a single version, mirroring `booked.inner().get(&version)`. -/
def bvGet (v : Int) (bv : BookedVersions) : Option KnownDbVersion :=
  (bv.find? (fun p => p.1 == v)).map (·.2)

/-- `booked.insert(version, known)`. -/
def bvInsert (v : Int) (k : KnownDbVersion) (bv : BookedVersions) : BookedVersions :=
  (v, k) :: bv.filter (fun p => p.1 != v)

/-- `booked.insert_many(lo..=hi, known)`. -/
def bvInsertMany (lo hi : Int) (k : KnownDbVersion) (bv : BookedVersions) : BookedVersions :=
  (List.range (hi - lo + 1).toNat).foldl (fun b i => bvInsert (lo + Int.ofNat i) k b) bv

/-- Modelled from the spec: `BookedVersions::contains` lives in `corro-types`,
which is not part of the provided sources. Spec §4.1: "`contains(actor,
versions, seqs) → bool`: true iff every requested `(version, seq)` is already
recorded as `Current` or `Partial`-with-seq-covered or `Cleared`." A version
held only as `Partial` counts as contained exactly when every requested seq of
the requested seq range is covered; when no seq range is requested a `Partial`
version is not fully known. -/
def bvContainsVersion (bv : BookedVersions) (v : Int) (seqs : Option (Int × Int)) : Bool :=
  match bvGet v bv with
  | some (.Current _ _ _) => true
  | some .Cleared => true
  | some (.Partl s _ _) =>
    match seqs with
    | some (lo, hi) => rsGapsCount (rsInsert (lo, hi) []) lo hi == 0 && rsGapsCount s lo hi == 0
    | none => false
  | none => false

/-- Modelled from the spec: `contains_all` over a whole version range (see
`bvContainsVersion`). -/
def bvContainsAll (bv : BookedVersions) (versions : Int × Int) (seqs : Option (Int × Int)) : Bool :=
  (List.range (versions.2 - versions.1 + 1).toNat).all
    (fun i => bvContainsVersion bv (versions.1 + Int.ofNat i) seqs)

/-- The global actor → `BookedVersions` map (`corro_types::agent::Bookie`). -/
abbrev Bookie := List (Nat × BookedVersions)

/-- `bookie.for_actor(actor_id)`: the actor's bookkeeping, defaulting to empty. -/
def bookieForActor (bk : Bookie) (actor : Nat) : BookedVersions :=
  ((bk.find? (fun p => p.1 == actor)).map (·.2)).getD []

/-- Replace the given actor's bookkeeping. -/
def bookieUpdate (bk : Bookie) (actor : Nat) (bv : BookedVersions) : Bookie :=
  (actor, bv) :: bk.filter (fun p => p.1 != actor)

/-- Modelled from the spec: `Bookie::contains` (in `corro-types`) — the
per-actor `contains_all` on the actor's entry. -/
def bookieContains (bk : Bookie) (actor : Nat) (versions : Int × Int)
    (seqs : Option (Int × Int)) : Bool :=
  bvContainsAll (bookieForActor bk actor) versions seqs

/-! ## Wire data (`corro_types::broadcast` / `corro_types::change`) -/

/-- One row change (`corro_types::change::Change`). -/
structure Change where
  table : String
  pk : String
  cid : String
  val : String
  col_version : Int
  db_version : Int
  site_id : Nat
  cl : Int
  seq : Int
deriving DecidableEq, Repr

/-- Modelled from the spec: `Changeset` lives in `corro-types` (not in the
provided sources). Spec §4.2: "A `Changeset` is either `Empty { versions:
range }`, or `Full { version, changes[], seqs: range, last_seq, ts }`, or a
partial fragment (same shape as `Full` but `is_complete == false`)." The
`is_complete` flag is passed separately where needed, matching how
`process_single_version` reads it once up front. -/
inductive Changeset
  | Empty (versions : Int × Int)
  | Full (version : Int) (changes : List Change) (seqs : Int × Int) (last_seq ts : Int)
deriving DecidableEq, Repr

/-- Modelled from the spec: the versions range of a changeset; `Current` and
`Partial` ranges are always of length 1 (spec §3 invariant 1), so a `Full`
changeset covers exactly its own version. -/
def Changeset.versions : Changeset → Int × Int
  | .Empty vs => vs
  | .Full v _ _ _ _ => (v, v)

/-- Modelled from the spec: the seq range carried by a changeset (`Empty`
changesets carry none). -/
def Changeset.seqs : Changeset → Option (Int × Int)
  | .Empty _ => none
  | .Full _ _ s _ _ => some s

/-- The changes carried by a changeset (`Changeset::changes`). -/
def Changeset.changes : Changeset → List Change
  | .Empty _ => []
  | .Full _ cs _ _ _ => cs

/-- `ChangeV1 { actor_id, changeset }`. -/
structure ChangeV1 where
  actor_id : Nat
  changeset : Changeset
deriving DecidableEq, Repr

/-! ## Persisted state (schema from `init_migration`) -/

/-- A `__corro_bookkeeping` row; primary key `(actor_id, start_version)`. -/
structure BkRow where
  actor_id : Nat
  start_version : Int
  end_version : Option Int
  db_version : Option Int
  last_seq : Option Int
  ts : Option Int
deriving DecidableEq, Repr

/-- A `__corro_seq_bookkeeping` row. -/
structure SeqBkRow where
  site_id : Nat
  version : Int
  start_seq : Int
  end_seq : Int
  last_seq : Int
  ts : Int
deriving DecidableEq, Repr

/-- A `__corro_buffered_changes` row; primary key
`(site_id, db_version, version, seq)`. -/
structure BufferedRow where
  table : String
  pk : String
  cid : String
  val : String
  col_version : Int
  db_version : Int
  site_id : Nat
  seq : Int
  cl : Int
  version : Int
deriving DecidableEq, Repr

/-- A row of the storage engine's `crsql_changes` virtual table, with the
columns every insertion path supplies. (The direct-apply path also binds a
`seq` column that the buffered-promotion `INSERT .. SELECT` omits; no modelled
behavior reads it back, so it is not stored.) -/
structure CrsqlRow where
  table : String
  pk : String
  cid : String
  val : String
  col_version : Int
  db_version : Int
  site_id : Nat
  cl : Int
deriving DecidableEq, Repr

/-- Project a wire change onto the `crsql_changes` columns. -/
def changeToCrsql (c : Change) : CrsqlRow :=
  ⟨c.table, c.pk, c.cid, c.val, c.col_version, c.db_version, c.site_id, c.cl⟩

/-- Project a buffered row onto the `crsql_changes` columns (the column list of
the promotion `INSERT INTO crsql_changes SELECT ...`). -/
def bufferedToCrsql (r : BufferedRow) : CrsqlRow :=
  ⟨r.table, r.pk, r.cid, r.val, r.col_version, r.db_version, r.site_id, r.cl⟩

/-- The full agent-visible state threaded through the embedded operations:
the in-memory bookie, the four persisted tables, and the `tx_apply` channel
contents (modelled as the list of sent `(actor, version)` pairs). -/
structure AgentState where
  bookie : Bookie
  crsql_changes : List CrsqlRow
  buffered : List BufferedRow
  bookkeeping : List BkRow
  seq_bookkeeping : List SeqBkRow
  apply_queue : List (Nat × Int)
deriving DecidableEq, Repr

/-- The storage engine's oracle for the crsql calls the agent makes. It is an
external collaborator (spec §1); its answers are parameters of the model, and
each call may fail like any SQL statement. `rows_impacted_after i` is the
value `SELECT crsql_rows_impacted()` returns after the `(i+1)`-th insert of
the current direct-apply loop; `rows_impacted_bulk` is its value after the
bulk buffered-promotion insert; `live_db_versions` backs the
`crsql_dbversions_count` query. -/
structure Engine where
  next_db_version : Except SqlError Int
  rows_impacted_after : Nat → Except SqlError Int
  rows_impacted_bulk : Except SqlError Int
  live_db_versions : List Int

/-! ## `store_empty_changeset` (agent.rs lines 1116–1149) -/

/-- `store_empty_changeset`: insert a `Cleared` bookkeeping row for the whole
`versions` range with `ON CONFLICT (actor_id, start_version) DO NOTHING` (the
`db_version` and `ts` parameters are bound to NULL), then for every version in
the range delete the matching `__corro_seq_bookkeeping` and
`__corro_buffered_changes` rows. -/
def store_empty_changeset (st : AgentState) (actor : Nat) (vlo vhi : Int) : AgentState :=
  let bk' :=
    if st.bookkeeping.any (fun r => r.actor_id == actor && r.start_version == vlo) then
      st.bookkeeping
    else
      st.bookkeeping ++ [⟨actor, vlo, some vhi, none, none, none⟩]
  let seq' := st.seq_bookkeeping.filter
    (fun r => !(r.site_id == actor && vlo ≤ r.version && r.version ≤ vhi))
  let buf' := st.buffered.filter
    (fun r => !(r.site_id == actor && vlo ≤ r.version && r.version ≤ vhi))
  { st with bookkeeping := bk', seq_bookkeeping := seq', buffered := buf' }

/-! ## Change ingestor: `process_single_version` (agent.rs lines 1264–1513) -/

/-- Insert a row into `__corro_buffered_changes` with
`ON CONFLICT (site_id, db_version, version, seq) DO NOTHING`. -/
def bufInsert (buf : List BufferedRow) (r : BufferedRow) : List BufferedRow :=
  if buf.any (fun x =>
      x.site_id == r.site_id && x.db_version == r.db_version &&
      x.version == r.version && x.seq == r.seq) then
    buf
  else
    buf ++ [r]

/-- The buffered row written for one change of a partial fragment: every column
comes from the change itself except `version`, which is the changeset's. -/
def changeToBuffered (version : Int) (c : Change) : BufferedRow :=
  ⟨c.table, c.pk, c.cid, c.val, c.col_version, c.db_version, c.site_id, c.seq, c.cl, version⟩

/-- The direct-apply loop of `process_single_version` (complete changesets):
insert each change into `crsql_changes`, read `crsql_rows_impacted()` after
each insert, and keep exactly the changes after which the counter strictly
grew. `i` is the index of the next insert (for the engine oracle) and `last`
the previously observed counter value (initially 0). Returns the impactful
subset, or the first storage error. -/
def applyChanges (oracle : Nat → Except SqlError Int) :
    List Change → Nat → Int → Except SqlError (List Change)
  | [], _, _ => .ok []
  | c :: cs, i, last =>
    match oracle i with
    | .error e => .error e
    | .ok ri =>
      match applyChanges oracle cs (i + 1) ri with
      | .error e => .error e
      | .ok rest => .ok (if last < ri then c :: rest else rest)

/-- `process_single_version`. Returns the possibly-updated state together with
the result the caller sees: `Ok(None)` when the change is already known,
`Ok(Some(changeset))` on success (the changeset to rebroadcast), or a
`ChangeError`. On error the state is returned unchanged: the storage
transaction rolls back on drop and the in-memory bookkeeping update only
happens after `tx.commit()`. `is_complete` is `change.is_complete()`,
evaluated by the caller (`corro-types`). -/
def process_single_version (eng : Engine) (is_complete : Bool) (change : ChangeV1)
    (st : AgentState) : AgentState × Except ChangeError (Option Changeset) :=
  let actor := change.actor_id
  let cs := change.changeset
  if bookieContains st.bookie actor cs.versions cs.seqs then
    (st, .ok none)
  else
    let booked := bookieForActor st.bookie actor
    -- check again, might've changed since we acquired the lock
    if bvContainsAll booked cs.versions cs.seqs then
      (st, .ok none)
    else
      match cs with
      | .Empty (vlo, vhi) =>
        -- `into_parts()` returned `None`: store the empty changeset (this
        -- commits the transaction inside) and mark the range `Cleared`.
        let st1 := store_empty_changeset st actor vlo vhi
        let booked' := bvInsertMany vlo vhi .Cleared booked
        ({ st1 with bookie := bookieUpdate st1.bookie actor booked' },
         .ok (some (.Empty (vlo, vhi))))
      | .Full version changes seqs last_seq ts =>
        if !is_complete then
          -- partial fragment: buffer the rows
          let buf' := changes.foldl (fun b c => bufInsert b (changeToBuffered version c)) st.buffered
          -- calculate all known sequences for the actor + version combo
          let recorded0 : RangeSet :=
            (st.seq_bookkeeping.filter (fun r => r.site_id == actor && r.version == version)).foldl
              (fun s r => rsInsert (r.start_seq, r.end_seq) s) []
          -- immediately add this new range to the recorded seqs ranges
          let seqs_recorded := rsInsert seqs recorded0
          let gaps_count := rsGapsCount seqs_recorded 0 last_seq
          let (seqbk', queue') :=
            if gaps_count == 0 then
              -- no gaps: schedule applying all these changes
              (st.seq_bookkeeping, st.apply_queue ++ [(actor, version)])
            else
              (st.seq_bookkeeping.filter
                 (fun r => !(r.site_id == actor && r.version == version)) ++
               seqs_recorded.map (fun r => ⟨actor, version, r.1, r.2, last_seq, ts⟩),
               st.apply_queue)
          let known := KnownDbVersion.Partl seqs_recorded last_seq ts
          let cs' := Changeset.Full version changes seqs last_seq ts
          let booked' := bvInsertMany cs'.versions.1 cs'.versions.2 known booked
          ({ st with buffered := buf', seq_bookkeeping := seqbk', apply_queue := queue',
                     bookie := bookieUpdate st.bookie actor booked' },
           .ok (some cs'))
        else
          match eng.next_db_version with
          | .error e => (st, .error (.storage e))
          | .ok db_version =>
            match applyChanges eng.rows_impacted_after changes 0 0 with
            | .error e => (st, .error (.storage e))
            | .ok impactful_changeset =>
              let crsql' := st.crsql_changes ++ changes.map changeToCrsql
              -- bookkeeping row inserted for every complete changeset, with db_version
              let bk' := st.bookkeeping ++
                [⟨actor, version, none, some db_version, some last_seq, some ts⟩]
              let (known, cs', dbv?) :=
                if impactful_changeset.isEmpty then
                  (KnownDbVersion.Cleared, Changeset.Empty (version, version),
                   (none : Option Int))
                else
                  (KnownDbVersion.Current db_version last_seq ts,
                   Changeset.Full version impactful_changeset seqs last_seq ts,
                   some db_version)
              let booked' := bvInsertMany cs'.versions.1 cs'.versions.2 known booked
              -- (`dbv?.isSome` gates the best-effort subscription notification,
              -- which has no modelled state)
              let _ := dbv?
              ({ st with crsql_changes := crsql', bookkeeping := bk',
                         bookie := bookieUpdate st.bookie actor booked' },
               .ok (some cs'))

/-! ## Buffered-change promoter: `process_fully_buffered_changes`
    (agent.rs lines 1151–1262) -/

/-- Insert a buffered row into a list sorted by the lexicographic
`(db_version, seq)` key. -/
def insertByDbvSeq (x : BufferedRow) : List BufferedRow → List BufferedRow
  | [] => [x]
  | y :: ys =>
    if x.db_version < y.db_version ||
        (x.db_version == y.db_version && x.seq ≤ y.seq) then
      x :: y :: ys
    else
      y :: insertByDbvSeq x ys

/-- The `ORDER BY db_version ASC, seq ASC` of the promotion query: a sort by
the lexicographic `(db_version, seq)` key (keys are distinct for the selected
rows thanks to the buffered-changes primary key). -/
def sortByDbvSeq : List BufferedRow → List BufferedRow
  | [] => []
  | x :: xs => insertByDbvSeq x (sortByDbvSeq xs)

/-- `process_fully_buffered_changes`. Verifies under the per-actor write lock
that the in-memory entry is still `Partial` with no gaps (returning `false`
without touching storage otherwise); then, in one transaction, moves the
buffered rows into `crsql_changes` in `(db_version, seq)` order, deletes them,
deletes the seq-bookkeeping rows, and writes a `Current` or `Cleared`
bookkeeping row depending on `crsql_rows_impacted()`. The in-memory insert
happens after the commit; on storage error the state is unchanged. -/
def process_fully_buffered_changes (eng : Engine) (actor : Nat) (version : Int)
    (st : AgentState) : AgentState × Except ChangeError Bool :=
  let booked := bookieForActor st.bookie actor
  match bvGet version booked with
  | some (.Partl seqs last_seq ts) =>
    if rsGapsCount seqs 0 last_seq != 0 then
      (st, .ok false)
    else
      -- insert all buffered changes into crsql_changes directly from the
      -- buffered changes table
      let moved := sortByDbvSeq
        (st.buffered.filter (fun r => r.site_id == actor && r.version == version))
      let crsql' := st.crsql_changes ++ moved.map bufferedToCrsql
      -- remove all buffered changes for cleanup purposes
      let buf' := st.buffered.filter (fun r => !(r.site_id == actor && r.version == version))
      -- delete all bookkept sequences for this version
      let seqbk' := st.seq_bookkeeping.filter
        (fun r => !(r.site_id == actor && r.version == version))
      match eng.rows_impacted_bulk with
      | .error e => (st, .error (.storage e))
      | .ok rows_impacted =>
        if rows_impacted > 0 then
          match eng.next_db_version with
          | .error e => (st, .error (.storage e))
          | .ok db_version =>
            let bk' := st.bookkeeping ++
              [⟨actor, version, none, some db_version, some last_seq, some ts⟩]
            let known := KnownDbVersion.Current db_version last_seq ts
            ({ st with crsql_changes := crsql', buffered := buf',
                       seq_bookkeeping := seqbk', bookkeeping := bk',
                       bookie := bookieUpdate st.bookie actor (bvInsert version known booked) },
             .ok true)
        else
          let bk' := st.bookkeeping ++
            [⟨actor, version, none, none, some last_seq, some ts⟩]
          ({ st with crsql_changes := crsql', buffered := buf',
                     seq_bookkeeping := seqbk', bookkeeping := bk',
                     bookie := bookieUpdate st.bookie actor
                       (bvInsert version .Cleared booked) },
           .ok true)
  | some _ => (st, .ok false)
  | none => (st, .ok false)

/-! ## Compactor (agent.rs lines 791–802 and the per-actor step of the
    compaction loop, lines 470–541) -/

/-- `compact_booked_for_actor`: `versions` is the actor's `current_versions()`
snapshot (`db_version → version`, a `BTreeMap`, modelled as an assoc list with
distinct keys). The query asks `crsql_dbversions_count` for the db-versions
still live between the smallest and largest snapshot key (with an empty
snapshot both parameters are NULL and the comparison matches no row); the
result is the snapshot keys minus the still-live set. -/
def compact_booked_for_actor (live_db_versions : List Int) (versions : List (Int × Int)) :
    List Int :=
  let keys := versions.map (·.1)
  match keys.min?, keys.max? with
  | some lo, some hi =>
    let still_live := live_db_versions.filter (fun d => lo ≤ d && d ≤ hi)
    keys.filter (fun k => !still_live.contains k)
  | _, _ => []

/-- The persisted row the compaction rewrite inserts for one in-memory range:
`Current` rows carry `(start_version, db_version, last_seq, ts)`, `Cleared`
rows carry `(start_version, end_version)`, `Partial` entries are not stored in
`__corro_bookkeeping`. -/
def compactRowFor (actor : Nat) (range : Int × Int) :
    KnownDbVersion → Option BkRow
  | .Current db_version last_seq ts =>
    some ⟨actor, range.1, none, some db_version, some last_seq, some ts⟩
  | .Cleared => some ⟨actor, range.1, some range.2, none, none, none⟩
  | .Partl _ _ _ => none

/-- One iteration of the compaction loop for one actor (agent.rs lines
476–541): compute `to_clear` from the `current_versions()` snapshot; if it is
empty, return without touching storage; otherwise, in one transaction, delete
all the actor's `__corro_bookkeeping` rows and reinsert one row per range of
the actor's current in-memory state (`mem_ranges`, the `booked.read().iter()`
snapshot), then in memory transition each cleared db-version's version to
`Cleared`. Returns the new persisted bookkeeping and in-memory state. -/
def compactActorRun (live_db_versions : List Int) (actor : Nat)
    (versions : List (Int × Int)) (mem_ranges : List ((Int × Int) × KnownDbVersion))
    (persisted : List BkRow) (mem : BookedVersions) :
    List BkRow × BookedVersions :=
  let to_clear := compact_booked_for_actor live_db_versions versions
  if to_clear.isEmpty then
    (persisted, mem)
  else
    let kept := persisted.filter (fun r => r.actor_id != actor)
    let reinserted := mem_ranges.filterMap (fun rk => compactRowFor actor rk.1 rk.2)
    let mem' := to_clear.foldl
      (fun m d =>
        match (versions.find? (fun p => p.1 == d)).map (·.2) with
        | some v => bvInsert v .Cleared m
        | none => m)
      mem
    (kept ++ reinserted, mem')

/-! ## Broadcast dispatcher: `handle_broadcast` (agent.rs lines 756–789) -/

/-- The per-message decision of `handle_broadcast`: a decoded change message
is dropped when the bookie already contains its versions and seqs, then when
it originated from the local actor; only a message passing both checks is
forwarded to `bcast_msg_tx`. Returns the forwarded message, if any. -/
def handle_broadcast_msg (self_actor_id : Nat) (bookie : Bookie) (msg : ChangeV1) :
    Option ChangeV1 :=
  if bookieContains bookie msg.actor_id msg.changeset.versions msg.changeset.seqs then
    none
  else if msg.actor_id == self_actor_id then
    none
  else
    some msg

/-! ## Sync client: `handle_sync` and `sync_loop`
    (agent.rs lines 1593–1780) -/

/-- `SyncClientError`, restricted to the outcomes of the modelled paths. -/
inductive SyncClientError
  | Status (code : Nat)
  | Unavailable
  | NoGoodCandidate
deriving DecidableEq, Repr

/-- Insert into a list sorted by strictly descending `need` (the comparator of
`choices.sort_by`, which orders by `need_len_for_actor(b).cmp(need(a))`, i.e.
descending need). -/
def insertByNeedDesc (need : Nat → Nat) (x : Nat × Nat) :
    List (Nat × Nat) → List (Nat × Nat)
  | [] => [x]
  | y :: ys => if need y.1 < need x.1 then x :: y :: ys else y :: insertByNeedDesc need x ys

/-- Sort candidate `(actor_id, addr)` pairs by descending
`need_len_for_actor`. -/
def sortByNeedDesc (need : Nat → Nat) : List (Nat × Nat) → List (Nat × Nat)
  | [] => []
  | x :: xs => insertByNeedDesc need x (sortByNeedDesc need xs)

/-- The peer-choice step of `handle_sync`. `members` is the live member table
as `(actor_id, addr)` pairs (addresses modelled as `Nat`); `self_actor_id` is
excluded; `sample` is the result of `choose_multiple(&mut rng, 2)` — up to two
candidates drawn uniformly at random, passed in as a parameter so the model is
deterministic; `need` is `sync_state.need_len_for_actor`. The sample is sorted
by descending need and the head taken; with no candidates the cycle fails with
`NoGoodCandidate`. -/
def handle_sync_choose (self_actor_id : Nat) (members : List (Nat × Nat))
    (sample : List (Nat × Nat)) (need : Nat → Nat) :
    Except SyncClientError (Nat × Nat) :=
  let candidates := members.filter (fun p => p.1 != self_actor_id)
  if candidates.isEmpty then
    .error .NoGoodCandidate
  else
    match sortByNeedDesc need sample with
    | chosen :: _ => .ok chosen
    | [] => .error .NoGoodCandidate

/-- The header timeout of the sync POST (`timeout(Duration::from_secs(15),
client.request(req))`), in seconds. -/
def sync_header_timeout_secs : Nat := 15

/-- `MAX_SYNC_BACKOFF` (agent.rs line 73), in seconds. -/
def max_sync_backoff_secs : Nat := 60

/-- Modelled from the spec: the `backoff` crate's
`Backoff::new(n).timeout_range(lo, hi).iter()` is not part of the provided
sources; per spec §4.6 it yields `n` retry delays, exponentially growing and
clamped to `[lo, hi]` (milliseconds here). -/
def backoffDelaysMs (n : Nat) (lo hi : Int) : List Int :=
  (List.range n).map (fun i => min hi (lo * 2 ^ i))

/-- The retry backoff built at the top of `handle_sync`:
`Backoff::new(5).timeout_range(100ms, 1s)`. -/
def handle_sync_retry_delays : List Int := backoffDelaysMs 5 100 1000

/-- The response-status handling of the `handle_sync` retry loop: `statuses i`
is the HTTP status of the `(i+1)`-th attempt of this cycle. A 200 succeeds; a
503 consumes one backoff delay and retries, failing with `Unavailable` once
the backoff iterator is exhausted; any other status fails immediately with
`Status`. -/
def syncStatusLoop (statuses : Nat → Nat) : Nat → Nat → Except SyncClientError Unit
  | attempt, fuel =>
    let s := statuses attempt
    if s == 200 then .ok ()
    else if s == 503 then
      match fuel with
      | 0 => .error .Unavailable
      | fuel' + 1 => syncStatusLoop statuses (attempt + 1) fuel'
    else .error (.Status s)

/-- The status outcome of one `handle_sync` cycle, with the code's 5-retry
backoff. -/
def handle_sync_statuses (statuses : Nat → Nat) : Except SyncClientError Unit :=
  syncStatusLoop statuses 0 handle_sync_retry_delays.length

/-- Modelled from the spec: the inter-cycle sleep of `sync_loop`,
`Backoff::new(0).timeout_range(1s, MAX_SYNC_BACKOFF)` — an unbounded
exponential backoff of delays growing from 1s and clamped at 60s
(milliseconds here). -/
def syncLoopBackoffMs (i : Nat) : Int :=
  min ((max_sync_backoff_secs : Int) * 1000) (1000 * 2 ^ i)

/-! ## Startup reconstruction of partial versions (`setup`,
    agent.rs lines 176–217) -/

/-- The fold building the `partials` map in `setup`: each
`__corro_seq_bookkeeping` row inserts its `start_seq..=end_seq` range into the
entry for `(site_id, version)` (default: empty set) and overwrites the entry's
`last_seq` and `ts` with the row's. The `HashMap` is modelled as an assoc list
in first-insertion order (no modelled behavior depends on iteration order). -/
def buildPartialsStep (acc : List ((Nat × Int) × (RangeSet × Int × Int)))
    (r : SeqBkRow) : List ((Nat × Int) × (RangeSet × Int × Int)) :=
  let key := (r.site_id, r.version)
  match acc.find? (fun p => p.1 == key) with
  | some e =>
    acc.map (fun p =>
      if p.1 == key then (key, (rsInsert (r.start_seq, r.end_seq) e.2.1, r.last_seq, r.ts))
      else p)
  | none => acc ++ [(key, (rsInsert (r.start_seq, r.end_seq) [], r.last_seq, r.ts))]

/-- The `partials` map built by `setup` from all persisted seq-bookkeeping
rows, in first-insertion order. -/
def buildPartials (rows : List SeqBkRow) :
    List ((Nat × Int) × (RangeSet × Int × Int)) :=
  rows.foldl buildPartialsStep []

/-- One entry of the `for ((actor_id, version), (seqs, last_seq, ts)) in
partials` loop of `setup`: insert the merged ranges as a `Partial` entry of
the in-memory bookkeeping being built, and record the `(actor, version)` send
on the apply channel when the merged set has no gaps against `0..=last_seq`. -/
def setupPartialStep (acc : Bookie × List (Nat × Int))
    (entry : (Nat × Int) × (RangeSet × Int × Int)) : Bookie × List (Nat × Int) :=
  let (actor_id, version) := entry.1
  let (seqs, last_seq, ts) := entry.2
  let gaps_count := rsGapsCount seqs 0 last_seq
  let ranges := bookieForActor acc.1 actor_id
  let bk' := bookieUpdate acc.1 actor_id
    (bvInsert version (.Partl seqs last_seq ts) ranges)
  (bk', if gaps_count == 0 then acc.2 ++ [(actor_id, version)] else acc.2)

/-- The partials pass of `setup`: fold the persisted seq-bookkeeping rows into
merged per-`(actor, version)` range sets; insert each as a `Partial` entry of
the in-memory bookkeeping being built; and send `(actor, version)` on the
apply channel exactly when the merged set has no gaps against `0..=last_seq`.
Returns the updated bookie and the sent pairs, in order. -/
def setupPartials (rows : List SeqBkRow) (bk : Bookie) : Bookie × List (Nat × Int) :=
  (buildPartials rows).foldl setupPartialStep (bk, [])

/-! ## Helper lemmas -/

theorem bookieForActor_bookieUpdate_self (bk : Bookie) (a : Nat) (bv : BookedVersions) :
    bookieForActor (bookieUpdate bk a bv) a = bv := by
  simp [bookieForActor, bookieUpdate, List.find?_cons_of_pos]

theorem bvInsertMany_single (v : Int) (k : KnownDbVersion) (bv : BookedVersions) :
    bvInsertMany v v k bv = bvInsert v k bv := by
  unfold bvInsertMany
  have h : (v - v + 1).toNat = 1 := by norm_num
  rw [h]
  simp [List.range_succ]

theorem bvGet_bvInsert_self (v : Int) (k : KnownDbVersion) (bv : BookedVersions) :
    bvGet v (bvInsert v k bv) = some k := by
  simp [bvGet, bvInsert, List.find?_cons_of_pos]

theorem bvContainsAll_single (bv : BookedVersions) (v : Int) (s : Option (Int × Int)) :
    bvContainsAll bv (v, v) s = bvContainsVersion bv v s := by
  unfold bvContainsAll
  have h : ((v, v).2 - (v, v).1 + 1).toNat = 1 := by norm_num
  rw [h]
  simp [List.range_succ]

/-- Fast path of `process_single_version`: when the bookie already contains
the changeset's versions and seqs, nothing happens. -/
theorem process_single_version_contained (eng : Engine) (b : Bool) (change : ChangeV1)
    (st : AgentState)
    (h : bookieContains st.bookie change.actor_id change.changeset.versions
      change.changeset.seqs = true) :
    process_single_version eng b change st = (st, .ok none) := by
  unfold process_single_version
  simp [h]

/-- The complete-changeset branch of `process_single_version`, characterized:
under a not-yet-contained hypothesis and successful engine calls, the result
state and return value in full. -/
theorem process_single_version_complete (eng : Engine) (st : AgentState) (actor : Nat)
    (version : Int) (changes : List Change) (seqs : Int × Int) (last_seq ts dbv : Int)
    (imp : List Change)
    (hnc : bookieContains st.bookie actor (version, version) (some seqs) = false)
    (hdb : eng.next_db_version = .ok dbv)
    (happ : applyChanges eng.rows_impacted_after changes 0 0 = .ok imp) :
    process_single_version eng true ⟨actor, .Full version changes seqs last_seq ts⟩ st =
      ({ st with
          bookie := bookieUpdate st.bookie actor
            (bvInsertMany version version
              (if imp.isEmpty then .Cleared else .Current dbv last_seq ts)
              (bookieForActor st.bookie actor)),
          crsql_changes := st.crsql_changes ++ changes.map changeToCrsql,
          bookkeeping := st.bookkeeping ++
            [⟨actor, version, none, some dbv, some last_seq, some ts⟩] },
       .ok (some (if imp.isEmpty then .Empty (version, version)
                  else .Full version imp seqs last_seq ts))) := by
  have hnc' : bvContainsAll (bookieForActor st.bookie actor) (version, version)
      (some seqs) = false := hnc
  unfold process_single_version
  simp only [Changeset.versions, Changeset.seqs, hnc, hnc', Bool.false_eq_true, if_false,
    Bool.not_true, hdb, happ]
  cases himp : imp.isEmpty <;>
    simp [himp, Changeset.versions]

/-- The empty-changeset branch of `process_single_version`, characterized. -/
theorem process_single_version_empty (eng : Engine) (b : Bool) (st : AgentState)
    (actor : Nat) (vlo vhi : Int)
    (hnc : bookieContains st.bookie actor (vlo, vhi) none = false) :
    process_single_version eng b ⟨actor, .Empty (vlo, vhi)⟩ st =
      (let st1 := store_empty_changeset st actor vlo vhi
       ({ st1 with
          bookie := bookieUpdate st1.bookie actor
            (bvInsertMany vlo vhi .Cleared (bookieForActor st.bookie actor)) },
        .ok (some (.Empty (vlo, vhi))))) := by
  have hnc' : bvContainsAll (bookieForActor st.bookie actor) (vlo, vhi) none = false := hnc
  unfold process_single_version
  simp [Changeset.versions, Changeset.seqs, hnc, hnc', store_empty_changeset]

/-- The partial-fragment branch of `process_single_version` when the merged
seq set has no gaps: the version is enqueued on the apply channel and the
persisted seq bookkeeping is left as it was. -/
theorem process_single_version_partial_nogaps (eng : Engine) (st : AgentState)
    (actor : Nat) (version : Int) (changes : List Change) (seqs : Int × Int)
    (last_seq ts : Int) (merged : RangeSet)
    (hnc : bookieContains st.bookie actor (version, version) (some seqs) = false)
    (hm : merged = rsInsert seqs
      ((st.seq_bookkeeping.filter (fun r => r.site_id == actor && r.version == version)).foldl
        (fun s r => rsInsert (r.start_seq, r.end_seq) s) []))
    (hg : rsGapsCount merged 0 last_seq = 0) :
    process_single_version eng false ⟨actor, .Full version changes seqs last_seq ts⟩ st =
      ({ st with
          buffered := changes.foldl (fun b c => bufInsert b (changeToBuffered version c))
            st.buffered,
          apply_queue := st.apply_queue ++ [(actor, version)],
          bookie := bookieUpdate st.bookie actor
            (bvInsertMany version version (.Partl merged last_seq ts)
              (bookieForActor st.bookie actor)) },
       .ok (some (.Full version changes seqs last_seq ts))) := by
  have hnc' : bvContainsAll (bookieForActor st.bookie actor) (version, version)
      (some seqs) = false := hnc
  subst hm
  unfold process_single_version
  simp [Changeset.versions, Changeset.seqs, hnc, hnc', hg]

/-- The partial-fragment branch of `process_single_version` when gaps remain:
the persisted seq-bookkeeping rows for `(actor, version)` are deleted and the
coalesced merged ranges reinserted; nothing is enqueued. -/
theorem process_single_version_partial_gaps (eng : Engine) (st : AgentState)
    (actor : Nat) (version : Int) (changes : List Change) (seqs : Int × Int)
    (last_seq ts : Int) (merged : RangeSet)
    (hnc : bookieContains st.bookie actor (version, version) (some seqs) = false)
    (hm : merged = rsInsert seqs
      ((st.seq_bookkeeping.filter (fun r => r.site_id == actor && r.version == version)).foldl
        (fun s r => rsInsert (r.start_seq, r.end_seq) s) []))
    (hg : rsGapsCount merged 0 last_seq ≠ 0) :
    process_single_version eng false ⟨actor, .Full version changes seqs last_seq ts⟩ st =
      ({ st with
          buffered := changes.foldl (fun b c => bufInsert b (changeToBuffered version c))
            st.buffered,
          seq_bookkeeping := st.seq_bookkeeping.filter
              (fun r => !(r.site_id == actor && r.version == version)) ++
            merged.map (fun rg => ⟨actor, version, rg.1, rg.2, last_seq, ts⟩),
          bookie := bookieUpdate st.bookie actor
            (bvInsertMany version version (.Partl merged last_seq ts)
              (bookieForActor st.bookie actor)) },
       .ok (some (.Full version changes seqs last_seq ts))) := by
  have hnc' : bvContainsAll (bookieForActor st.bookie actor) (version, version)
      (some seqs) = false := hnc
  have hg' : (rsGapsCount (rsInsert seqs
      ((st.seq_bookkeeping.filter (fun r => r.site_id == actor && r.version == version)).foldl
        (fun s r => rsInsert (r.start_seq, r.end_seq) s) [])) 0 last_seq == 0) = false := by
    rw [← hm]
    simpa using hg
  subst hm
  unfold process_single_version
  simp [Changeset.versions, Changeset.seqs, hnc, hnc', hg']

/-- On a failing `crsql_nextdbversion()` call the ingestor's transaction
aborts: unchanged state, `ChangeError` returned. -/
theorem process_single_version_dbv_error (eng : Engine) (st : AgentState) (actor : Nat)
    (version : Int) (changes : List Change) (seqs : Int × Int) (last_seq ts : Int)
    (e : SqlError)
    (hnc : bookieContains st.bookie actor (version, version) (some seqs) = false)
    (hdb : eng.next_db_version = .error e) :
    process_single_version eng true ⟨actor, .Full version changes seqs last_seq ts⟩ st =
      (st, .error (.storage e)) := by
  have hnc' : bvContainsAll (bookieForActor st.bookie actor) (version, version)
      (some seqs) = false := hnc
  unfold process_single_version
  simp [Changeset.versions, Changeset.seqs, hnc, hnc', hdb]

/-- On a failing insert or `crsql_rows_impacted()` read inside the
direct-apply loop the ingestor's transaction aborts. -/
theorem process_single_version_apply_error (eng : Engine) (st : AgentState) (actor : Nat)
    (version : Int) (changes : List Change) (seqs : Int × Int) (last_seq ts dbv : Int)
    (e : SqlError)
    (hnc : bookieContains st.bookie actor (version, version) (some seqs) = false)
    (hdb : eng.next_db_version = .ok dbv)
    (happ : applyChanges eng.rows_impacted_after changes 0 0 = .error e) :
    process_single_version eng true ⟨actor, .Full version changes seqs last_seq ts⟩ st =
      (st, .error (.storage e)) := by
  have hnc' : bvContainsAll (bookieForActor st.bookie actor) (version, version)
      (some seqs) = false := hnc
  unfold process_single_version
  simp [Changeset.versions, Changeset.seqs, hnc, hnc', hdb, happ]

/-- Guard of `process_fully_buffered_changes`: unless the in-memory entry is a
`Partial` with no gaps, the call returns `false` and the state is untouched. -/
theorem process_fully_buffered_changes_guard (eng : Engine) (st : AgentState)
    (actor : Nat) (version : Int)
    (h : ∀ seqs last_seq ts,
      bvGet version (bookieForActor st.bookie actor) = some (.Partl seqs last_seq ts) →
      rsGapsCount seqs 0 last_seq ≠ 0) :
    process_fully_buffered_changes eng actor version st = (st, .ok false) := by
  cases hbv : bvGet version (bookieForActor st.bookie actor) with
  | none => simp [process_fully_buffered_changes, hbv]
  | some k =>
    cases k with
    | Current dbv ls t => simp [process_fully_buffered_changes, hbv]
    | Cleared => simp [process_fully_buffered_changes, hbv]
    | Partl seqs ls t =>
      have hg := h seqs ls t hbv
      simp [process_fully_buffered_changes, hbv, hg]

/-- The promoting branch of `process_fully_buffered_changes` with a positive
impacted-rows count: a fresh db-version is taken and a `Current` bookkeeping
row written. -/
theorem process_fully_buffered_changes_current (eng : Engine) (st : AgentState)
    (actor : Nat) (version : Int) (seqs : RangeSet) (last_seq ts ri dbv : Int)
    (hbv : bvGet version (bookieForActor st.bookie actor) =
      some (.Partl seqs last_seq ts))
    (hg : rsGapsCount seqs 0 last_seq = 0)
    (hri : eng.rows_impacted_bulk = .ok ri) (hpos : 0 < ri)
    (hdb : eng.next_db_version = .ok dbv) :
    process_fully_buffered_changes eng actor version st =
      ({ st with
          crsql_changes := st.crsql_changes ++
            (sortByDbvSeq (st.buffered.filter
              (fun r => r.site_id == actor && r.version == version))).map bufferedToCrsql,
          buffered := st.buffered.filter
            (fun r => !(r.site_id == actor && r.version == version)),
          seq_bookkeeping := st.seq_bookkeeping.filter
            (fun r => !(r.site_id == actor && r.version == version)),
          bookkeeping := st.bookkeeping ++
            [⟨actor, version, none, some dbv, some last_seq, some ts⟩],
          bookie := bookieUpdate st.bookie actor
            (bvInsert version (.Current dbv last_seq ts)
              (bookieForActor st.bookie actor)) },
       .ok true) := by
  unfold process_fully_buffered_changes
  simp [hbv, hg, hri, hdb, hpos]

/-- The promoting branch of `process_fully_buffered_changes` with a
non-positive impacted-rows count: the bookkeeping row is written without a
db-version and the in-memory state becomes `Cleared`. -/
theorem process_fully_buffered_changes_cleared (eng : Engine) (st : AgentState)
    (actor : Nat) (version : Int) (seqs : RangeSet) (last_seq ts ri : Int)
    (hbv : bvGet version (bookieForActor st.bookie actor) =
      some (.Partl seqs last_seq ts))
    (hg : rsGapsCount seqs 0 last_seq = 0)
    (hri : eng.rows_impacted_bulk = .ok ri) (hpos : ¬ 0 < ri) :
    process_fully_buffered_changes eng actor version st =
      ({ st with
          crsql_changes := st.crsql_changes ++
            (sortByDbvSeq (st.buffered.filter
              (fun r => r.site_id == actor && r.version == version))).map bufferedToCrsql,
          buffered := st.buffered.filter
            (fun r => !(r.site_id == actor && r.version == version)),
          seq_bookkeeping := st.seq_bookkeeping.filter
            (fun r => !(r.site_id == actor && r.version == version)),
          bookkeeping := st.bookkeeping ++
            [⟨actor, version, none, none, some last_seq, some ts⟩],
          bookie := bookieUpdate st.bookie actor
            (bvInsert version .Cleared (bookieForActor st.bookie actor)) },
       .ok true) := by
  unfold process_fully_buffered_changes
  have hpos' : ¬ ri > 0 := hpos
  simp [hbv, hg, hri, hpos']

/-- A failing `crsql_rows_impacted()` read aborts the promotion transaction. -/
theorem process_fully_buffered_changes_bulk_error (eng : Engine) (st : AgentState)
    (actor : Nat) (version : Int) (seqs : RangeSet) (last_seq ts : Int) (e : SqlError)
    (hbv : bvGet version (bookieForActor st.bookie actor) =
      some (.Partl seqs last_seq ts))
    (hg : rsGapsCount seqs 0 last_seq = 0)
    (hri : eng.rows_impacted_bulk = .error e) :
    process_fully_buffered_changes eng actor version st = (st, .error (.storage e)) := by
  unfold process_fully_buffered_changes
  simp [hbv, hg, hri]

/-- A failing `crsql_nextdbversion()` call aborts the promotion transaction. -/
theorem process_fully_buffered_changes_dbv_error (eng : Engine) (st : AgentState)
    (actor : Nat) (version : Int) (seqs : RangeSet) (last_seq ts ri : Int) (e : SqlError)
    (hbv : bvGet version (bookieForActor st.bookie actor) =
      some (.Partl seqs last_seq ts))
    (hg : rsGapsCount seqs 0 last_seq = 0)
    (hri : eng.rows_impacted_bulk = .ok ri) (hpos : 0 < ri)
    (hdb : eng.next_db_version = .error e) :
    process_fully_buffered_changes eng actor version st = (st, .error (.storage e)) := by
  unfold process_fully_buffered_changes
  simp [hbv, hg, hri, hpos, hdb]

/-! ## Concrete fixtures used by witnesses and counterexamples -/

/-- A sample row change. -/
def chA : Change := ⟨"t", "pk1", "c", "v", 1, 1, 1, 1, 0⟩

/-- The empty agent state. -/
def stEmpty : AgentState := ⟨[], [], [], [], [], []⟩

/-- An engine for which every insert grows the impacted-rows counter. -/
def engOK : Engine := ⟨.ok 5, fun _ => .ok 1, .ok 1, []⟩

/-- An engine for which no insert grows the impacted-rows counter. -/
def engZero : Engine := ⟨.ok 5, fun _ => .ok 0, .ok 0, []⟩

/-- An engine whose calls all fail. -/
def engErr : Engine := ⟨.error .busy, fun _ => .error .busy, .error .busy, []⟩

/-- An engine whose bulk impacted-rows read fails. -/
def engBulkErr : Engine := ⟨.ok 5, fun _ => .ok 1, .error .busy, []⟩

/-- A state holding a partial version 7 of actor 1 with seqs `0..=4` of
`0..=9` buffered, mirrored by one persisted seq-bookkeeping row. -/
def stFrag : AgentState :=
  ⟨[(1, [(7, .Partl [(0, 4)] 9 0)])], [], [], [], [⟨1, 7, 0, 4, 9, 0⟩], []⟩

/-- A state holding a fully buffered version 7 of actor 1 (`0..=1` of `0..=1`,
two buffered rows arriving out of `(db_version, seq)` order). -/
def stBuf : AgentState :=
  ⟨[(1, [(7, .Partl [(0, 1)] 1 0)])], [],
   [⟨"t", "p", "c", "v", 1, 2, 1, 1, 1, 7⟩, ⟨"t", "p", "c", "v", 1, 1, 1, 0, 1, 7⟩],
   [], [⟨1, 7, 0, 1, 1, 0⟩], []⟩

/-! ## C1 — ingesting a complete changeset -/

/-- Claim C1 counterexample: a complete changeset none of whose changes is
impactful. The code still writes the bookkeeping row with the db-version it
obtained up front (`db_version = some 5`), while the claim requires a
`Cleared` row with no db-version; the in-memory state and the returned
changeset do become `Cleared`/`Empty`. -/
theorem ingest_complete_counterexample :
    (process_single_version engZero true ⟨1, .Full 7 [chA] (0, 0) 0 0⟩ stEmpty).2 =
      .ok (some (.Empty (7, 7))) ∧
    (process_single_version engZero true ⟨1, .Full 7 [chA] (0, 0) 0 0⟩
        stEmpty).1.crsql_changes = [changeToCrsql chA] ∧
    ((process_single_version engZero true ⟨1, .Full 7 [chA] (0, 0) 0 0⟩
        stEmpty).1.bookkeeping.map (·.db_version)) = [some 5] ∧
    [some (5 : Int)] ≠ [(none : Option Int)] :=
  ⟨rfl, rfl, rfl, by decide⟩

/-- Claim C1 (amended): for a complete changeset not yet contained, the
ingestor obtains a new db-version from `crsql_nextdbversion()` up front and
unconditionally writes the bookkeeping row carrying it; the impactful subset
is exactly the changes after which `crsql_rows_impacted()` strictly grew; the
in-memory entry becomes `Current` when at least one change was impactful and
`Cleared` otherwise, and the returned changeset carries exactly the impactful
subset (or is `Empty`). -/
theorem ingest_complete_spec (eng : Engine) (st : AgentState) (actor : Nat)
    (version : Int) (changes : List Change) (seqs : Int × Int) (last_seq ts dbv : Int)
    (imp : List Change)
    (hnc : bookieContains st.bookie actor (version, version) (some seqs) = false)
    (hdb : eng.next_db_version = .ok dbv)
    (happ : applyChanges eng.rows_impacted_after changes 0 0 = .ok imp) :
    (process_single_version eng true ⟨actor, .Full version changes seqs last_seq ts⟩
        st).1.bookkeeping =
      st.bookkeeping ++ [⟨actor, version, none, some dbv, some last_seq, some ts⟩] ∧
    (process_single_version eng true ⟨actor, .Full version changes seqs last_seq ts⟩
        st).1.crsql_changes =
      st.crsql_changes ++ changes.map changeToCrsql ∧
    (process_single_version eng true ⟨actor, .Full version changes seqs last_seq ts⟩
        st).2 =
      .ok (some (if imp.isEmpty then .Empty (version, version)
                 else .Full version imp seqs last_seq ts)) ∧
    bookieForActor
        (process_single_version eng true ⟨actor, .Full version changes seqs last_seq ts⟩
          st).1.bookie actor =
      bvInsert version (if imp.isEmpty then .Cleared else .Current dbv last_seq ts)
        (bookieForActor st.bookie actor) ∧
    (∀ (c : Change) (cs : List Change) (i : Nat) (last ri : Int) (rest : List Change),
      eng.rows_impacted_after i = .ok ri →
      applyChanges eng.rows_impacted_after cs (i + 1) ri = .ok rest →
      applyChanges eng.rows_impacted_after (c :: cs) i last =
        .ok (if last < ri then c :: rest else rest)) := by
  have h := process_single_version_complete eng st actor version changes seqs last_seq ts
    dbv imp hnc hdb happ
  rw [h]
  refine ⟨rfl, rfl, rfl, ?_, ?_⟩
  · rw [show ({ st with
        bookie := bookieUpdate st.bookie actor
          (bvInsertMany version version
            (if imp.isEmpty then .Cleared else .Current dbv last_seq ts)
            (bookieForActor st.bookie actor)),
        crsql_changes := st.crsql_changes ++ changes.map changeToCrsql,
        bookkeeping := st.bookkeeping ++
          [⟨actor, version, none, some dbv, some last_seq, some ts⟩] } :
        AgentState).bookie =
      bookieUpdate st.bookie actor
        (bvInsertMany version version
          (if imp.isEmpty then .Cleared else .Current dbv last_seq ts)
          (bookieForActor st.bookie actor)) from rfl]
    rw [bookieForActor_bookieUpdate_self, bvInsertMany_single]
  · intro c cs i last ri rest hri hrest
    simp [applyChanges, hri, hrest]

/-- Claim C1 witness: the amended statement applied at a concrete impactful
ingest. -/
theorem ingest_complete_spec_witness :
    bookieContains stEmpty.bookie 1 (7, 7) (some (0, 0)) = false ∧
    (process_single_version engOK true ⟨1, .Full 7 [chA] (0, 0) 0 0⟩
        stEmpty).1.bookkeeping =
      stEmpty.bookkeeping ++ [⟨1, 7, none, some 5, some 0, some 0⟩] ∧
    (process_single_version engOK true ⟨1, .Full 7 [chA] (0, 0) 0 0⟩
        stEmpty).1.crsql_changes =
      stEmpty.crsql_changes ++ [chA].map changeToCrsql :=
  ⟨by decide,
   (ingest_complete_spec engOK stEmpty 1 7 [chA] (0, 0) 0 0 5 [chA]
     (by decide) rfl rfl).1,
   (ingest_complete_spec engOK stEmpty 1 7 [chA] (0, 0) 0 0 5 [chA]
     (by decide) rfl rfl).2.1⟩

/-! ## C2 — ingesting a partial fragment -/

/-- Claim C2 counterexample: a fragment (`5..=9` of `0..=9`) that completes
the buffered seq set. The code enqueues `(actor, version)` on the apply
channel but leaves the persisted seq-bookkeeping rows untouched (still the
stale `0..=4` row), while the claim requires the merged, coalesced set
(`0..=9`) to be rewritten unconditionally. -/
theorem ingest_partial_counterexample :
    (process_single_version engOK false ⟨1, .Full 7 [chA] (5, 9) 9 0⟩
        stFrag).1.seq_bookkeeping = [⟨1, 7, 0, 4, 9, 0⟩] ∧
    (process_single_version engOK false ⟨1, .Full 7 [chA] (5, 9) 9 0⟩
        stFrag).1.apply_queue = [(1, 7)] ∧
    ([⟨1, 7, 0, 4, 9, 0⟩] : List SeqBkRow) ≠ [⟨1, 7, 0, 9, 9, 0⟩] :=
  ⟨rfl, rfl, by decide⟩

/-- Claim C2 (amended): a partial fragment's rows are buffered and the
fragment's seqs are merged (in memory) with the persisted seq-bookkeeping
into a coalesced, disjoint set, and the in-memory entry becomes `Partial`
with the merged set. When the merged set still has gaps against
`0..=last_seq`, the persisted rows for `(actor, version)` are deleted and the
merged ranges reinserted; when it has no gaps, the persisted seq rows are
left unchanged and `(actor, version)` is enqueued on the apply channel. -/
theorem ingest_partial_spec (eng : Engine) (st : AgentState) (actor : Nat)
    (version : Int) (changes : List Change) (seqs : Int × Int) (last_seq ts : Int)
    (merged : RangeSet)
    (hnc : bookieContains st.bookie actor (version, version) (some seqs) = false)
    (hm : merged = rsInsert seqs
      ((st.seq_bookkeeping.filter (fun r => r.site_id == actor && r.version == version)).foldl
        (fun s r => rsInsert (r.start_seq, r.end_seq) s) [])) :
    (rsGapsCount merged 0 last_seq = 0 →
      process_single_version eng false ⟨actor, .Full version changes seqs last_seq ts⟩ st =
        ({ st with
            buffered := changes.foldl (fun b c => bufInsert b (changeToBuffered version c))
              st.buffered,
            apply_queue := st.apply_queue ++ [(actor, version)],
            bookie := bookieUpdate st.bookie actor
              (bvInsertMany version version (.Partl merged last_seq ts)
                (bookieForActor st.bookie actor)) },
         .ok (some (.Full version changes seqs last_seq ts)))) ∧
    (rsGapsCount merged 0 last_seq ≠ 0 →
      process_single_version eng false ⟨actor, .Full version changes seqs last_seq ts⟩ st =
        ({ st with
            buffered := changes.foldl (fun b c => bufInsert b (changeToBuffered version c))
              st.buffered,
            seq_bookkeeping := st.seq_bookkeeping.filter
                (fun r => !(r.site_id == actor && r.version == version)) ++
              merged.map (fun rg => ⟨actor, version, rg.1, rg.2, last_seq, ts⟩),
            bookie := bookieUpdate st.bookie actor
              (bvInsertMany version version (.Partl merged last_seq ts)
                (bookieForActor st.bookie actor)) },
         .ok (some (.Full version changes seqs last_seq ts)))) :=
  ⟨fun hg => process_single_version_partial_nogaps eng st actor version changes seqs
     last_seq ts merged hnc hm hg,
   fun hg => process_single_version_partial_gaps eng st actor version changes seqs
     last_seq ts merged hnc hm hg⟩

/-- Claim C2 witness: the amended statement applied at a concrete gapped
fragment (`6..=9` of `0..=9` over a buffered `0..=4`): the persisted rows are
rewritten as the merged disjoint ranges. -/
theorem ingest_partial_spec_witness :
    bookieContains stFrag.bookie 1 (7, 7) (some (6, 9)) = false ∧
    (process_single_version engOK false ⟨1, .Full 7 [chA] (6, 9) 9 0⟩
        stFrag).1.seq_bookkeeping =
      [⟨1, 7, 0, 4, 9, 0⟩, ⟨1, 7, 6, 9, 9, 0⟩] := by
  refine ⟨by decide, ?_⟩
  have h := (ingest_partial_spec engOK stFrag 1 7 [chA] (6, 9) 9 0 [(0, 4), (6, 9)]
    (by decide) (by decide)).2 (by decide)
  rw [h]
  rfl

/-! ## C3 — buffered-change promoter -/

/-- Claim C3: the promoter first verifies the in-memory entry is still
`Partial` with no gaps, returning `false` with no storage effects otherwise;
when it promotes, the buffered rows for `(actor, version)` go into
`crsql_changes` ordered by `(db_version ASC, seq ASC)`, those buffered rows
and the seq-bookkeeping rows are deleted, and — depending on
`crsql_rows_impacted()` — either a `Current` bookkeeping row with a fresh
db-version or a `Cleared` row is written. -/
theorem promoter_spec (eng : Engine) (st : AgentState) (actor : Nat) (version : Int) :
    ((∀ seqs last_seq ts,
        bvGet version (bookieForActor st.bookie actor) = some (.Partl seqs last_seq ts) →
        rsGapsCount seqs 0 last_seq ≠ 0) →
      process_fully_buffered_changes eng actor version st = (st, .ok false)) ∧
    (∀ seqs last_seq ts ri,
      bvGet version (bookieForActor st.bookie actor) = some (.Partl seqs last_seq ts) →
      rsGapsCount seqs 0 last_seq = 0 →
      eng.rows_impacted_bulk = .ok ri →
      (0 < ri → ∀ dbv, eng.next_db_version = .ok dbv →
        process_fully_buffered_changes eng actor version st =
          ({ st with
              crsql_changes := st.crsql_changes ++
                (sortByDbvSeq (st.buffered.filter
                  (fun r => r.site_id == actor && r.version == version))).map bufferedToCrsql,
              buffered := st.buffered.filter
                (fun r => !(r.site_id == actor && r.version == version)),
              seq_bookkeeping := st.seq_bookkeeping.filter
                (fun r => !(r.site_id == actor && r.version == version)),
              bookkeeping := st.bookkeeping ++
                [⟨actor, version, none, some dbv, some last_seq, some ts⟩],
              bookie := bookieUpdate st.bookie actor
                (bvInsert version (.Current dbv last_seq ts)
                  (bookieForActor st.bookie actor)) },
           .ok true)) ∧
      (¬ 0 < ri →
        process_fully_buffered_changes eng actor version st =
          ({ st with
              crsql_changes := st.crsql_changes ++
                (sortByDbvSeq (st.buffered.filter
                  (fun r => r.site_id == actor && r.version == version))).map bufferedToCrsql,
              buffered := st.buffered.filter
                (fun r => !(r.site_id == actor && r.version == version)),
              seq_bookkeeping := st.seq_bookkeeping.filter
                (fun r => !(r.site_id == actor && r.version == version)),
              bookkeeping := st.bookkeeping ++
                [⟨actor, version, none, none, some last_seq, some ts⟩],
              bookie := bookieUpdate st.bookie actor
                (bvInsert version .Cleared (bookieForActor st.bookie actor)) },
           .ok true))) :=
  ⟨fun h => process_fully_buffered_changes_guard eng st actor version h,
   fun seqs last_seq ts ri hbv hg hri =>
     ⟨fun hpos dbv hdb => process_fully_buffered_changes_current eng st actor version
        seqs last_seq ts ri dbv hbv hg hri hpos hdb,
      fun hpos => process_fully_buffered_changes_cleared eng st actor version
        seqs last_seq ts ri hbv hg hri hpos⟩⟩

/-- Claim C3 witness: promoting a concrete fully buffered version whose two
buffered rows arrived out of order; they enter `crsql_changes` sorted by
`(db_version, seq)`, the buffered and seq-bookkeeping rows vanish, and a
`Current` row with the fresh db-version 5 is written. -/
theorem promoter_spec_witness :
    bvGet 7 (bookieForActor stBuf.bookie 1) = some (.Partl [(0, 1)] 1 0) ∧
    process_fully_buffered_changes engOK 1 7 stBuf =
      (⟨[(1, [(7, .Current 5 1 0)])],
        [⟨"t", "p", "c", "v", 1, 1, 1, 1⟩, ⟨"t", "p", "c", "v", 1, 2, 1, 1⟩],
        [], [⟨1, 7, none, some 5, some 1, some 0⟩], [], []⟩,
       .ok true) := by
  refine ⟨by decide, ?_⟩
  have h := ((promoter_spec engOK stBuf 1 7).2 [(0, 1)] 1 0 1 (by decide) (by decide)
    rfl).1 (by decide) 5 rfl
  rw [h]
  rfl

/-! ## C4 — error atomicity -/

/-- Claim C4: for every ingest or promotion call, if the operation reports a
`ChangeError` the whole state — in-memory bookkeeping and all persisted
tables — is exactly as before the call: the transaction aborted and the
in-memory update (which only happens after commit) never ran. -/
theorem ingest_error_atomicity (eng : Engine) (st : AgentState) (b : Bool)
    (change : ChangeV1) (actor : Nat) (version : Int) (e : ChangeError) :
    ((process_single_version eng b change st).2 = .error e →
      (process_single_version eng b change st).1 = st) ∧
    ((process_fully_buffered_changes eng actor version st).2 = .error e →
      (process_fully_buffered_changes eng actor version st).1 = st) := by
  constructor
  · intro h
    obtain ⟨a, cs⟩ := change
    by_cases hc : bookieContains st.bookie a cs.versions cs.seqs = true
    · rw [process_single_version_contained eng b ⟨a, cs⟩ st hc] at h
      simp at h
    · have hnc : bookieContains st.bookie a cs.versions cs.seqs = false :=
        Bool.eq_false_iff.mpr hc
      cases cs with
      | Empty vs =>
        obtain ⟨vlo, vhi⟩ := vs
        rw [process_single_version_empty eng b st a vlo vhi hnc] at h
        simp at h
      | Full version' changes seqs last_seq ts =>
        have hnc' : bookieContains st.bookie a (version', version') (some seqs) = false := by
          simpa [Changeset.versions, Changeset.seqs] using hnc
        cases b with
        | false =>
          by_cases hg : rsGapsCount (rsInsert seqs
            ((st.seq_bookkeeping.filter
              (fun r => r.site_id == a && r.version == version')).foldl
              (fun s r => rsInsert (r.start_seq, r.end_seq) s) [])) 0 last_seq = 0
          · rw [process_single_version_partial_nogaps eng st a version' changes seqs
              last_seq ts _ hnc' rfl hg] at h
            simp at h
          · rw [process_single_version_partial_gaps eng st a version' changes seqs
              last_seq ts _ hnc' rfl hg] at h
            simp at h
        | true =>
          cases hdb : eng.next_db_version with
          | error e' =>
            rw [process_single_version_dbv_error eng st a version' changes seqs
              last_seq ts e' hnc' hdb]
          | ok dbv =>
            cases happ : applyChanges eng.rows_impacted_after changes 0 0 with
            | error e' =>
              rw [process_single_version_apply_error eng st a version' changes seqs
                last_seq ts dbv e' hnc' hdb happ]
            | ok imp =>
              rw [process_single_version_complete eng st a version' changes seqs
                last_seq ts dbv imp hnc' hdb happ] at h
              simp at h
  · intro h
    cases hbv : bvGet version (bookieForActor st.bookie actor) with
    | none => simp [process_fully_buffered_changes, hbv] at h
    | some k =>
      cases k with
      | Current dbv ls t => simp [process_fully_buffered_changes, hbv] at h
      | Cleared => simp [process_fully_buffered_changes, hbv] at h
      | Partl seqs ls t =>
        by_cases hg : rsGapsCount seqs 0 ls = 0
        · cases hri : eng.rows_impacted_bulk with
          | error e' =>
            rw [process_fully_buffered_changes_bulk_error eng st actor version seqs
              ls t e' hbv hg hri]
          | ok ri =>
            by_cases hpos : 0 < ri
            · cases hdb : eng.next_db_version with
              | error e' =>
                rw [process_fully_buffered_changes_dbv_error eng st actor version seqs
                  ls t ri e' hbv hg hri hpos hdb]
              | ok dbv =>
                rw [process_fully_buffered_changes_current eng st actor version seqs
                  ls t ri dbv hbv hg hri hpos hdb] at h
                simp at h
            · rw [process_fully_buffered_changes_cleared eng st actor version seqs
                ls t ri hbv hg hri hpos] at h
              simp at h
        · have hfa : ∀ s ls' t',
              bvGet version (bookieForActor st.bookie actor) = some (.Partl s ls' t') →
              rsGapsCount s 0 ls' ≠ 0 := by
            intro s ls' t' hEq
            rw [hbv] at hEq
            simp only [Option.some.injEq, KnownDbVersion.Partl.injEq] at hEq
            obtain ⟨rfl, rfl, rfl⟩ := hEq
            exact hg
          rw [process_fully_buffered_changes_guard eng st actor version hfa]

/-- Claim C4 witness: a failing `crsql_nextdbversion()` during a complete
ingest and a failing `crsql_rows_impacted()` during a promotion both surface
a `ChangeError` and leave the state untouched. -/
theorem ingest_error_atomicity_witness :
    (process_single_version engErr true ⟨1, .Full 7 [chA] (0, 0) 0 0⟩ stEmpty).2 =
      .error (.storage .busy) ∧
    (process_single_version engErr true ⟨1, .Full 7 [chA] (0, 0) 0 0⟩ stEmpty).1 =
      stEmpty ∧
    (process_fully_buffered_changes engBulkErr 1 7 stBuf).2 = .error (.storage .busy) ∧
    (process_fully_buffered_changes engBulkErr 1 7 stBuf).1 = stBuf :=
  ⟨rfl,
   (ingest_error_atomicity engErr stEmpty true ⟨1, .Full 7 [chA] (0, 0) 0 0⟩ 1 7
     (.storage .busy)).1 rfl,
   rfl,
   (ingest_error_atomicity engBulkErr stBuf true ⟨1, .Full 7 [chA] (0, 0) 0 0⟩ 1 7
     (.storage .busy)).2 rfl⟩

/-! ## C5 — ingestor idempotence -/

/-- Claim C5: when the bookkeeping already contains a changeset's versions and
seqs, `process_single_version` returns "already known" (`Ok(None)`) with the
state untouched — no storage I/O (in the source the same check guards the
path a second time under the per-actor write lock); consequently,
redelivering a complete changeset that was just processed successfully is a
no-op. -/
theorem process_single_version_idempotent (eng eng' : Engine) (b : Bool)
    (change : ChangeV1) (st : AgentState) :
    (bookieContains st.bookie change.actor_id change.changeset.versions
        change.changeset.seqs = true →
      process_single_version eng b change st = (st, .ok none)) ∧
    (∀ version changes seqs last_seq ts st' cs',
      change.changeset = .Full version changes seqs last_seq ts →
      process_single_version eng true change st = (st', .ok (some cs')) →
      process_single_version eng' true change st' = (st', .ok none)) := by
  constructor
  · exact fun h => process_single_version_contained eng b change st h
  · intro version changes seqs last_seq ts st' cs' hcs hrun
    obtain ⟨a, cs⟩ := change
    simp only at hcs
    subst hcs
    by_cases hc : bookieContains st.bookie a
        (Changeset.Full version changes seqs last_seq ts).versions
        (Changeset.Full version changes seqs last_seq ts).seqs = true
    · rw [process_single_version_contained eng true _ st hc] at hrun
      simp at hrun
    · have hnc : bookieContains st.bookie a (version, version) (some seqs) = false := by
        simpa [Changeset.versions, Changeset.seqs] using Bool.eq_false_iff.mpr hc
      cases hdb : eng.next_db_version with
      | error e' =>
        rw [process_single_version_dbv_error eng st a version changes seqs last_seq ts
          e' hnc hdb] at hrun
        simp at hrun
      | ok dbv =>
        cases happ : applyChanges eng.rows_impacted_after changes 0 0 with
        | error e' =>
          rw [process_single_version_apply_error eng st a version changes seqs last_seq
            ts dbv e' hnc hdb happ] at hrun
          simp at hrun
        | ok imp =>
          rw [process_single_version_complete eng st a version changes seqs last_seq ts
            dbv imp hnc hdb happ] at hrun
          have hst' := congrArg Prod.fst hrun
          simp only at hst'
          subst hst'
          refine process_single_version_contained eng' true _ _ ?_
          show bookieContains
            (bookieUpdate st.bookie a
              (bvInsertMany version version
                (if imp.isEmpty then KnownDbVersion.Cleared
                 else KnownDbVersion.Current dbv last_seq ts)
                (bookieForActor st.bookie a))) a
            (Changeset.Full version changes seqs last_seq ts).versions
            (Changeset.Full version changes seqs last_seq ts).seqs = true
          unfold bookieContains
          rw [bookieForActor_bookieUpdate_self]
          simp only [Changeset.versions, Changeset.seqs]
          rw [bvContainsAll_single, bvInsertMany_single]
          cases himp : imp.isEmpty <;>
            simp [himp, bvContainsVersion, bvGet_bvInsert_self]

/-- Claim C5 witness: the already-known fast path at a concrete contained
changeset, and redelivery of a concrete freshly processed changeset. -/
theorem process_single_version_idempotent_witness :
    (process_single_version engOK true ⟨1, .Empty (7, 7)⟩
        ⟨[(1, [(7, .Cleared)])], [], [], [], [], []⟩ =
      (⟨[(1, [(7, .Cleared)])], [], [], [], [], []⟩, .ok none)) ∧
    (process_single_version engZero true ⟨1, .Full 7 [chA] (0, 0) 0 0⟩
        (process_single_version engOK true ⟨1, .Full 7 [chA] (0, 0) 0 0⟩ stEmpty).1 =
      ((process_single_version engOK true ⟨1, .Full 7 [chA] (0, 0) 0 0⟩ stEmpty).1,
       .ok none)) :=
  ⟨(process_single_version_idempotent engOK engOK true ⟨1, .Empty (7, 7)⟩
      ⟨[(1, [(7, .Cleared)])], [], [], [], [], []⟩).1 (by decide),
   (process_single_version_idempotent engOK engZero true ⟨1, .Full 7 [chA] (0, 0) 0 0⟩
      stEmpty).2 7 [chA] (0, 0) 0 0
      (process_single_version engOK true ⟨1, .Full 7 [chA] (0, 0) 0 0⟩ stEmpty).1
      (.Full 7 [chA] (0, 0) 0 0) rfl rfl⟩

/-! ## C7 — broadcast dispatcher -/

/-- Claim C7: for every decoded broadcast change message, the dispatcher drops
the message when the bookie already `contains` its `(actor, versions, seqs)`,
drops it when its `actor_id` is the local actor's, and forwards it exactly
when it passes both checks. -/
theorem handle_broadcast_filters (self : Nat) (bookie : Bookie) (msg : ChangeV1) :
    (handle_broadcast_msg self bookie msg = some msg ↔
      (bookieContains bookie msg.actor_id msg.changeset.versions msg.changeset.seqs = false ∧
       msg.actor_id ≠ self)) ∧
    (bookieContains bookie msg.actor_id msg.changeset.versions msg.changeset.seqs = true →
      handle_broadcast_msg self bookie msg = none) ∧
    (msg.actor_id = self → handle_broadcast_msg self bookie msg = none) := by
  unfold handle_broadcast_msg
  refine ⟨?_, ?_, ?_⟩
  · constructor
    · intro h
      split at h
      · exact absurd h (by simp)
      · split at h
        · exact absurd h (by simp)
        · refine ⟨by simp_all, by simp_all⟩
    · rintro ⟨h1, h2⟩
      simp [h1, h2]
  · intro h
    simp [h]
  · intro h
    subst h
    split
    · rfl
    · simp

/-- Claim C7 witness: a message from a foreign actor not yet known to an
empty bookie is forwarded. -/
theorem handle_broadcast_filters_witness :
    handle_broadcast_msg 1 [] ⟨2, .Empty (3, 4)⟩ = some ⟨2, .Empty (3, 4)⟩ :=
  (handle_broadcast_filters 1 [] ⟨2, .Empty (3, 4)⟩).1.mpr ⟨by decide, by decide⟩

/-! ## C6 — compaction -/

theorem int_foldl_min_le (xs : List Int) (x : Int) :
    xs.foldl min x ≤ x ∧ ∀ b ∈ xs, xs.foldl min x ≤ b := by
  induction xs generalizing x with
  | nil => simp
  | cons y ys ih =>
    refine ⟨?_, ?_⟩
    · exact le_trans (ih (min x y)).1 (min_le_left x y)
    · intro b hb
      rcases List.mem_cons.mp hb with rfl | h
      · exact le_trans (ih (min x b)).1 (min_le_right x b)
      · exact (ih (min x y)).2 b h

theorem int_le_foldl_max (xs : List Int) (x : Int) :
    x ≤ xs.foldl max x ∧ ∀ b ∈ xs, b ≤ xs.foldl max x := by
  induction xs generalizing x with
  | nil => simp
  | cons y ys ih =>
    refine ⟨?_, ?_⟩
    · exact le_trans (le_max_left x y) (ih (max x y)).1
    · intro b hb
      rcases List.mem_cons.mp hb with rfl | h
      · exact le_trans (le_max_right x b) (ih (max x b)).1
      · exact (ih (max x y)).2 b h

/-- Claim C6 counterexample: an actor whose whole `Current` snapshot is still
live. The retire set is empty and the compactor returns without touching the
persisted bookkeeping, while the claim requires the unconditional
delete-and-reinsert rewrite — which here (with an empty in-memory iteration)
would have deleted the actor's stale persisted row. -/
theorem compaction_counterexample :
    compactActorRun [1] 3 [(1, 10)] [] [⟨3, 99, some 99, none, none, none⟩] [] =
      ([⟨3, 99, some 99, none, none, none⟩], []) ∧
    ([⟨3, 99, some 99, none, none, none⟩] : List BkRow) ≠
      [⟨3, 99, some 99, none, none, none⟩].filter (fun r => r.actor_id != 3) ++
        ([] : List ((Int × Int) × KnownDbVersion)).filterMap
          (fun rk => compactRowFor 3 rk.1 rk.2) :=
  ⟨rfl, by decide⟩

/-- Claim C6 (amended): the retire set is exactly the db-versions of the
actor's `Current` snapshot that `crsql_dbversions_count` does not report live;
when it is empty the compactor leaves storage untouched, and when it is
non-empty the compactor deletes all the actor's persisted rows, reinserts one
row per range of the in-memory state, and in memory transitions each retired
version to `Cleared`. -/
theorem compaction_spec (live : List Int) (actor : Nat) (versions : List (Int × Int))
    (mem_ranges : List ((Int × Int) × KnownDbVersion)) (persisted : List BkRow)
    (mem : BookedVersions) :
    (∀ k, k ∈ compact_booked_for_actor live versions ↔
      (k ∈ versions.map (·.1) ∧ k ∉ live)) ∧
    (compact_booked_for_actor live versions = [] →
      compactActorRun live actor versions mem_ranges persisted mem = (persisted, mem)) ∧
    (compact_booked_for_actor live versions ≠ [] →
      compactActorRun live actor versions mem_ranges persisted mem =
        (persisted.filter (fun r => r.actor_id != actor) ++
           mem_ranges.filterMap (fun rk => compactRowFor actor rk.1 rk.2),
         (compact_booked_for_actor live versions).foldl
           (fun m d =>
             match (versions.find? (fun p => p.1 == d)).map (·.2) with
             | some v => bvInsert v .Cleared m
             | none => m)
           mem)) := by
  refine ⟨?_, ?_, ?_⟩
  · intro k
    cases hvm : versions.map (·.1) with
    | nil => simp [compact_booked_for_actor, hvm]
    | cons a as =>
      unfold compact_booked_for_actor
      rw [hvm]
      simp only [List.min?_cons', List.max?_cons', List.mem_filter, Bool.not_eq_true']
      constructor
      · rintro ⟨hmem, hflt⟩
        refine ⟨hmem, ?_⟩
        intro hlive
        have hlo : as.foldl min a ≤ k := by
          rcases List.mem_cons.mp hmem with rfl | h
          · exact (int_foldl_min_le as k).1
          · exact (int_foldl_min_le as a).2 k h
        have hhi : k ≤ as.foldl max a := by
          rcases List.mem_cons.mp hmem with rfl | h
          · exact (int_le_foldl_max as k).1
          · exact (int_le_foldl_max as a).2 k h
        have hin : k ∈ live.filter (fun d => as.foldl min a ≤ d && d ≤ as.foldl max a) := by
          rw [List.mem_filter]
          exact ⟨hlive, by simp [hlo, hhi]⟩
        have hin' : (live.filter
            (fun d => as.foldl min a ≤ d && d ≤ as.foldl max a)).contains k = true :=
          List.elem_iff.mpr hin
        rw [hflt] at hin'
        simp at hin'
      · rintro ⟨hmem, hnl⟩
        refine ⟨hmem, Bool.eq_false_iff.mpr ?_⟩
        intro hin
        have hmem' : k ∈ live.filter
            (fun d => as.foldl min a ≤ d && d ≤ as.foldl max a) :=
          List.elem_iff.mp hin
        rw [List.mem_filter] at hmem'
        exact hnl hmem'.1
  · intro h
    simp [compactActorRun, h]
  · intro h
    have h' : (compact_booked_for_actor live versions).isEmpty = false := by
      simpa [List.isEmpty_iff] using h
    simp [compactActorRun, h']

/-- Claim C6 witness: the amended statement at a concrete actor with one
retired db-version: the persisted rows are rewritten from the in-memory state
and the version moves to `Cleared` in memory. -/
theorem compaction_spec_witness :
    compact_booked_for_actor [] [(1, 10)] ≠ [] ∧
    compactActorRun [] 3 [(1, 10)] [((10, 10), .Current 1 0 0)]
        [⟨3, 99, some 99, none, none, none⟩] [(10, .Current 1 0 0)] =
      ([⟨3, 10, none, some 1, some 0, some 0⟩], [(10, .Cleared)]) := by
  refine ⟨by decide, ?_⟩
  have h := (compaction_spec [] 3 [(1, 10)] [((10, 10), .Current 1 0 0)]
    [⟨3, 99, some 99, none, none, none⟩] [(10, .Current 1 0 0)]).2.2 (by decide)
  rw [h]
  rfl

/-! ## C8 — sync peer choice -/

theorem insertByNeedDesc_mem (need : Nat → Nat) (x y : Nat × Nat)
    (l : List (Nat × Nat)) : y ∈ insertByNeedDesc need x l ↔ y = x ∨ y ∈ l := by
  induction l with
  | nil => simp [insertByNeedDesc]
  | cons z zs ih =>
    simp only [insertByNeedDesc]
    split
    · simp [List.mem_cons]
    · simp [List.mem_cons, ih]
      tauto

theorem sortByNeedDesc_mem (need : Nat → Nat) (y : Nat × Nat) (l : List (Nat × Nat)) :
    y ∈ sortByNeedDesc need l ↔ y ∈ l := by
  induction l with
  | nil => simp [sortByNeedDesc]
  | cons x xs ih => simp [sortByNeedDesc, insertByNeedDesc_mem, ih]

theorem insertByNeedDesc_head_max (need : Nat → Nat) (x : Nat × Nat)
    (l : List (Nat × Nat))
    (hl : ∀ c rest, l = c :: rest → ∀ d ∈ l, need d.1 ≤ need c.1) :
    ∀ c rest, insertByNeedDesc need x l = c :: rest →
      ∀ d, (d = x ∨ d ∈ l) → need d.1 ≤ need c.1 := by
  cases l with
  | nil =>
    intro c rest h d hd
    have hx : x = c := (List.cons.injEq .. |>.mp h).1
    subst hx
    rcases hd with rfl | hd
    · exact le_refl _
    · simp at hd
  | cons y ys =>
    intro c rest h d hd
    simp only [insertByNeedDesc] at h
    split at h
    · rename_i hlt
      have hx : x = c := (List.cons.injEq .. |>.mp h).1
      subst hx
      rcases hd with rfl | hd
      · exact le_refl _
      · exact le_of_lt (lt_of_le_of_lt (hl y ys rfl d hd) hlt)
    · rename_i hge
      have hy : y = c := (List.cons.injEq .. |>.mp h).1
      subst hy
      rcases hd with rfl | hd
      · exact le_of_not_lt hge
      · exact hl _ _ rfl d hd

theorem sortByNeedDesc_head_max (need : Nat → Nat) :
    ∀ (l : List (Nat × Nat)) (c : Nat × Nat) (rest : List (Nat × Nat)),
      sortByNeedDesc need l = c :: rest → ∀ d ∈ l, need d.1 ≤ need c.1 := by
  intro l
  induction l with
  | nil => intro c rest h; simp [sortByNeedDesc] at h
  | cons x xs ih =>
    intro c rest h d hd
    simp only [sortByNeedDesc] at h
    have hl : ∀ c' rest', sortByNeedDesc need xs = c' :: rest' →
        ∀ e ∈ sortByNeedDesc need xs, need e.1 ≤ need c'.1 := by
      intro c' rest' hs e he
      exact ih c' rest' hs e ((sortByNeedDesc_mem need e xs).mp he)
    refine insertByNeedDesc_head_max need x (sortByNeedDesc need xs) hl c rest h d ?_
    rcases List.mem_cons.mp hd with rfl | hd'
    · exact Or.inl rfl
    · exact Or.inr ((sortByNeedDesc_mem need d xs).mpr hd')

/-- Claim C8: the sync client's peer choice — candidates are the live members
minus itself; with none at all the cycle fails with `NoGoodCandidate`; the
chosen peer is a member of the random 2-sample with the maximal
`need_len_for_actor` among the sample (the sample is sorted by descending
need and the head taken), and an empty sample also yields
`NoGoodCandidate`. -/
theorem sync_choice_spec (self : Nat) (members sample : List (Nat × Nat))
    (need : Nat → Nat) :
    (members.filter (fun p => p.1 != self) = [] →
      handle_sync_choose self members sample need = .error .NoGoodCandidate) ∧
    (∀ c, handle_sync_choose self members sample need = .ok c →
      c ∈ sample ∧ ∀ d ∈ sample, need d.1 ≤ need c.1) ∧
    (members.filter (fun p => p.1 != self) ≠ [] → sample = [] →
      handle_sync_choose self members sample need = .error .NoGoodCandidate) := by
  refine ⟨?_, ?_, ?_⟩
  · intro h
    simp [handle_sync_choose, h]
  · intro c h
    simp only [handle_sync_choose] at h
    by_cases hEmp : (members.filter (fun p => p.1 != self)).isEmpty = true
    · rw [if_pos hEmp] at h
      exact absurd h (by simp)
    · rw [if_neg hEmp] at h
      cases hs : sortByNeedDesc need sample with
      | nil =>
        rw [hs] at h
        exact absurd h (by simp)
      | cons b bs =>
        rw [hs] at h
        simp only [Except.ok.injEq] at h
        subst h
        refine ⟨(sortByNeedDesc_mem need b sample).mp (hs ▸ List.mem_cons_self b bs), ?_⟩
        exact fun d hd => sortByNeedDesc_head_max need sample b bs hs d hd
  · intro h hs
    subst hs
    have h' : (members.filter (fun p => p.1 != self)).isEmpty = false := by
      simpa [List.isEmpty_iff] using h
    simp [handle_sync_choose, h', sortByNeedDesc]

/-- Claim C8 witness: between peers 2 and 3 (with `need` equal to the actor
id), the chooser picks peer 3, the sample member with the larger need. -/
theorem sync_choice_spec_witness :
    handle_sync_choose 1 [(2, 10), (3, 11)] [(2, 10), (3, 11)] (fun a => a) =
      .ok (3, 11) ∧
    (3, 11) ∈ [(2, 10), (3, 11)] ∧
    ∀ d ∈ [(2, 10), (3, 11)], (fun (a : Nat) => a) d.1 ≤ (fun (a : Nat) => a) 3 := by
  have h := (sync_choice_spec 1 [(2, 10), (3, 11)] [(2, 10), (3, 11)]
    (fun a => a)).2.1 (3, 11) rfl
  exact ⟨rfl, h.1, h.2⟩

/-! ## C9 — sync HTTP error handling and backoff -/

theorem syncStatusLoop_all_503 (statuses : Nat → Nat) (h : ∀ i, statuses i = 503) :
    ∀ fuel attempt, syncStatusLoop statuses attempt fuel = .error .Unavailable := by
  intro fuel
  induction fuel with
  | zero =>
    intro attempt
    rw [syncStatusLoop]
    simp [h]
  | succ f ih =>
    intro attempt
    rw [syncStatusLoop]
    simp only [h]
    simpa using ih (attempt + 1)

theorem syncStatusLoop_503_then_200 (statuses : Nat → Nat) :
    ∀ fuel attempt k, k ≤ fuel → (∀ i, i < k → statuses (attempt + i) = 503) →
      statuses (attempt + k) = 200 →
      syncStatusLoop statuses attempt fuel = .ok () := by
  intro fuel
  induction fuel with
  | zero =>
    intro attempt k hk h503 h200
    have hk0 : k = 0 := Nat.le_zero.mp hk
    subst hk0
    rw [syncStatusLoop]
    simp at h200
    simp [h200]
  | succ f ih =>
    intro attempt k hk h503 h200
    cases k with
    | zero =>
      rw [syncStatusLoop]
      simp at h200
      simp [h200]
    | succ k' =>
      have h0 : statuses attempt = 503 := by
        simpa using h503 0 (Nat.succ_pos k')
      rw [syncStatusLoop]
      simp only [h0]
      have hrec := ih (attempt + 1) k' (Nat.lt_succ_iff.mp (Nat.lt_of_succ_le hk))
        (fun i hi => by
          have := h503 (i + 1) (Nat.succ_lt_succ hi)
          simpa [Nat.add_assoc, Nat.add_comm 1 i] using this)
        (by
          have := h200
          simpa [Nat.add_assoc, Nat.add_comm 1 k'] using this)
      simpa using hrec

/-- Claim C9: the sync POST uses a 15-second header timeout; a 503 consumes
one of the retry backoff's 5 delays (each within 100ms–1s) and retries,
failing as `Unavailable` once they are exhausted; any other non-200 status
fails the cycle immediately with that status; and the inter-cycle sleep is an
exponential backoff growing from 1s and capped at `MAX_SYNC_BACKOFF` = 60s. -/
theorem sync_backoff_spec :
    sync_header_timeout_secs = 15 ∧
    handle_sync_retry_delays.length = 5 ∧
    (∀ d ∈ handle_sync_retry_delays, 100 ≤ d ∧ d ≤ 1000) ∧
    (∀ statuses : Nat → Nat, (∀ i, statuses i = 503) →
      handle_sync_statuses statuses = .error .Unavailable) ∧
    (∀ statuses : Nat → Nat, ∀ s, statuses 0 = s → s ≠ 200 → s ≠ 503 →
      handle_sync_statuses statuses = .error (.Status s)) ∧
    (∀ statuses : Nat → Nat, ∀ k, k ≤ 5 → (∀ i, i < k → statuses i = 503) →
      statuses k = 200 → handle_sync_statuses statuses = .ok ()) ∧
    syncLoopBackoffMs 0 = 1000 ∧
    (∀ i, 1000 ≤ syncLoopBackoffMs i ∧ syncLoopBackoffMs i ≤ 60000) ∧
    syncLoopBackoffMs 6 = 60000 ∧
    max_sync_backoff_secs = 60 := by
  refine ⟨rfl, rfl, by decide, ?_, ?_, ?_, by decide, ?_, by decide, rfl⟩
  · intro statuses h
    exact syncStatusLoop_all_503 statuses h handle_sync_retry_delays.length 0
  · intro statuses s h0 h200 h503
    unfold handle_sync_statuses
    rw [syncStatusLoop.eq_def]
    have hb200 : (statuses 0 == 200) = false := by
      rw [h0]
      simpa using h200
    have hb503 : (statuses 0 == 503) = false := by
      rw [h0]
      simpa using h503
    simp [hb200, hb503, h0, h200, h503]
  · intro statuses k hk h503 h200
    exact syncStatusLoop_503_then_200 statuses handle_sync_retry_delays.length 0 k hk
      (fun i hi => by simpa using h503 i hi) (by simpa using h200)
  · intro i
    constructor
    · show (1000 : Int) ≤ min ((max_sync_backoff_secs : Int) * 1000) (1000 * 2 ^ i)
      refine le_min (by norm_num [max_sync_backoff_secs]) ?_
      have h2 : (1 : Int) ≤ 2 ^ i := one_le_pow₀ (by norm_num)
      nlinarith
    · show min ((max_sync_backoff_secs : Int) * 1000) (1000 * 2 ^ i) ≤ 60000
      calc min ((max_sync_backoff_secs : Int) * 1000) (1000 * 2 ^ i) ≤
            (max_sync_backoff_secs : Int) * 1000 := min_le_left _ _
        _ = 60000 := by norm_num [max_sync_backoff_secs]

/-- Claim C9 witness: six consecutive 503 responses exhaust the 5 retries and
fail as `Unavailable`; an immediate 500 fails with that status. -/
theorem sync_backoff_spec_witness :
    handle_sync_statuses (fun _ => 503) = .error .Unavailable ∧
    handle_sync_statuses (fun _ => 500) = .error (.Status 500) :=
  ⟨sync_backoff_spec.2.2.2.1 (fun _ => 503) (fun _ => rfl),
   sync_backoff_spec.2.2.2.2.1 (fun _ => 500) 500 rfl (by decide) (by decide)⟩

/-! ## C10 — startup reconstruction of partial versions -/

theorem find?_filter_of_imp {α : Type} (l : List α) (p q : α → Bool)
    (h : ∀ x, p x = true → q x = true) : (l.filter q).find? p = l.find? p := by
  induction l with
  | nil => rfl
  | cons x xs ih =>
    cases hq : q x with
    | false =>
      have hp : p x = false := by
        cases hpx : p x with
        | false => rfl
        | true => exact absurd (h x hpx) (by simp [hq])
      simp [List.filter_cons, hq, List.find?_cons, hp, ih]
    | true =>
      cases hp : p x <;> simp [List.filter_cons, hq, List.find?_cons, hp, ih]

theorem bvGet_bvInsert_ne (v v' : Int) (k : KnownDbVersion) (bv : BookedVersions)
    (h : v ≠ v') : bvGet v (bvInsert v' k bv) = bvGet v bv := by
  unfold bvGet bvInsert
  rw [List.find?_cons_of_neg _ (by simpa using Ne.symm h)]
  rw [find?_filter_of_imp]
  intro x hx
  have : x.1 = v := by simpa using hx
  simp [this, h]

theorem bookieForActor_bookieUpdate_ne (bk : Bookie) (a a' : Nat)
    (bv : BookedVersions) (h : a ≠ a') :
    bookieForActor (bookieUpdate bk a' bv) a = bookieForActor bk a := by
  unfold bookieForActor bookieUpdate
  rw [List.find?_cons_of_neg _ (by simpa using Ne.symm h)]
  rw [find?_filter_of_imp]
  intro x hx
  have : x.1 = a := by simpa using hx
  simp [this, h]

/-- Lookup of one `(actor, version)` in a bookie (for the `setup` fold
lemmas). -/
def lookupAV (bk : Bookie) (key : Nat × Int) : Option KnownDbVersion :=
  bvGet key.2 (bookieForActor bk key.1)

theorem lookupAV_setupPartialStep_self (acc : Bookie × List (Nat × Int))
    (e : (Nat × Int) × (RangeSet × Int × Int)) :
    lookupAV (setupPartialStep acc e).1 e.1 =
      some (.Partl e.2.1 e.2.2.1 e.2.2.2) := by
  obtain ⟨⟨a, v⟩, ⟨s, ls, t⟩⟩ := e
  unfold lookupAV setupPartialStep
  simp only
  rw [bookieForActor_bookieUpdate_self, bvGet_bvInsert_self]

theorem lookupAV_setupPartialStep_ne (acc : Bookie × List (Nat × Int))
    (e : (Nat × Int) × (RangeSet × Int × Int)) (key : Nat × Int) (h : e.1 ≠ key) :
    lookupAV (setupPartialStep acc e).1 key = lookupAV acc.1 key := by
  obtain ⟨⟨a, v⟩, ⟨s, ls, t⟩⟩ := e
  obtain ⟨a', v'⟩ := key
  unfold lookupAV setupPartialStep
  simp only
  by_cases ha : a' = a
  · subst ha
    have hv : v' ≠ v := by
      intro hv
      exact h (by simp [hv])
    rw [bookieForActor_bookieUpdate_self, bvGet_bvInsert_ne _ _ _ _ hv]
  · rw [bookieForActor_bookieUpdate_ne acc.1 a' a _ ha]

theorem lookupAV_setupPartials_fold_ne
    (entries : List ((Nat × Int) × (RangeSet × Int × Int)))
    (acc : Bookie × List (Nat × Int)) (key : Nat × Int)
    (h : ∀ e ∈ entries, e.1 ≠ key) :
    lookupAV (entries.foldl setupPartialStep acc).1 key = lookupAV acc.1 key := by
  induction entries generalizing acc with
  | nil => rfl
  | cons x xs ih =>
    rw [List.foldl_cons]
    rw [ih _ (fun e he => h e (List.mem_cons_of_mem x he))]
    exact lookupAV_setupPartialStep_ne acc x key (h x (List.mem_cons_self x xs))

theorem lookupAV_setupPartials_fold
    (entries : List ((Nat × Int) × (RangeSet × Int × Int)))
    (acc : Bookie × List (Nat × Int))
    (hnd : (entries.map (·.1)).Nodup) :
    ∀ e ∈ entries, lookupAV (entries.foldl setupPartialStep acc).1 e.1 =
      some (.Partl e.2.1 e.2.2.1 e.2.2.2) := by
  induction entries generalizing acc with
  | nil => intro e he; simp at he
  | cons x xs ih =>
    intro e he
    rw [List.map_cons, List.nodup_cons] at hnd
    rcases List.mem_cons.mp he with rfl | he'
    · rw [List.foldl_cons]
      rw [lookupAV_setupPartials_fold_ne xs (setupPartialStep acc e) e.1
        (fun e' he' hk => hnd.1 (hk ▸ List.mem_map_of_mem (·.1) he'))]
      exact lookupAV_setupPartialStep_self acc e
    · rw [List.foldl_cons]
      exact ih (setupPartialStep acc x) hnd.2 e he'

theorem setupPartials_fold_queue
    (entries : List ((Nat × Int) × (RangeSet × Int × Int)))
    (acc : Bookie × List (Nat × Int)) :
    (entries.foldl setupPartialStep acc).2 =
      acc.2 ++ (entries.filter
        (fun e => rsGapsCount e.2.1 0 e.2.2.1 == 0)).map (·.1) := by
  induction entries generalizing acc with
  | nil => simp
  | cons x xs ih =>
    obtain ⟨⟨a, v⟩, ⟨s, ls, t⟩⟩ := x
    rw [List.foldl_cons, ih]
    cases hg : rsGapsCount s 0 ls == 0 with
    | false =>
      have hstep : (setupPartialStep acc ((a, v), (s, ls, t))).2 = acc.2 := by
        unfold setupPartialStep
        simp [hg]
      rw [hstep, List.filter_cons]
      simp [hg]
    | true =>
      have hstep : (setupPartialStep acc ((a, v), (s, ls, t))).2 = acc.2 ++ [(a, v)] := by
        unfold setupPartialStep
        simp [hg]
      rw [hstep, List.filter_cons]
      simp [hg]

theorem buildPartialsStep_keys (acc : List ((Nat × Int) × (RangeSet × Int × Int)))
    (r : SeqBkRow) :
    (buildPartialsStep acc r).map (·.1) = acc.map (·.1) ∨
    ((buildPartialsStep acc r).map (·.1) = acc.map (·.1) ++ [(r.site_id, r.version)] ∧
      (r.site_id, r.version) ∉ acc.map (·.1)) := by
  unfold buildPartialsStep
  simp only
  cases hf : acc.find? (fun p => p.1 == (r.site_id, r.version)) with
  | some e =>
    left
    rw [List.map_map]
    refine List.map_congr_left ?_
    intro p _
    show (if p.1 == (r.site_id, r.version) then
        ((r.site_id, r.version),
         (rsInsert (r.start_seq, r.end_seq) e.2.1, r.last_seq, r.ts))
      else p).1 = p.1
    split
    · rename_i hp
      have : p.1 = (r.site_id, r.version) := by simpa using hp
      simp [this]
    · rfl
  | none =>
    right
    constructor
    · simp
    · intro hmem
      obtain ⟨p, hp, hp1⟩ := List.mem_map.mp hmem
      have := List.find?_eq_none.mp hf p hp
      simp [hp1] at this

theorem buildPartials_fold_keys_nodup (rows : List SeqBkRow)
    (acc : List ((Nat × Int) × (RangeSet × Int × Int)))
    (hnd : (acc.map (·.1)).Nodup) :
    ((rows.foldl buildPartialsStep acc).map (·.1)).Nodup := by
  induction rows generalizing acc with
  | nil => exact hnd
  | cons r rs ih =>
    rw [List.foldl_cons]
    refine ih (buildPartialsStep acc r) ?_
    rcases buildPartialsStep_keys acc r with h | ⟨h, hnm⟩
    · rw [h]; exact hnd
    · rw [h]
      simp only [List.nodup_append]
      exact ⟨hnd, List.nodup_singleton _, by simpa using hnm⟩

/-- Claim C10: the partials pass of `setup` — every merged
`(actor, version)` entry built from the persisted seq-bookkeeping rows ends
up in the in-memory bookkeeping as `Partial` with the merged seq set, and the
apply channel receives exactly the entries whose merged set has zero gaps
against `0..=last_seq`. -/
theorem setup_partials_spec (rows : List SeqBkRow) (bk : Bookie) :
    (setupPartials rows bk).2 = ((buildPartials rows).filter
      (fun e => rsGapsCount e.2.1 0 e.2.2.1 == 0)).map (·.1) ∧
    ∀ e ∈ buildPartials rows,
      bvGet e.1.2 (bookieForActor (setupPartials rows bk).1 e.1.1) =
        some (.Partl e.2.1 e.2.2.1 e.2.2.2) := by
  constructor
  · rw [setupPartials, setupPartials_fold_queue]
    rfl
  · intro e he
    have hnd : ((buildPartials rows).map (·.1)).Nodup :=
      buildPartials_fold_keys_nodup rows [] (by simp)
    exact lookupAV_setupPartials_fold (buildPartials rows) (bk, []) hnd e he

/-- Claim C10 witness: two rows completing actor 1's version 7 (merged
`0..=9`) and one gapped row for actor 2's version 3: only `(1, 7)` is sent on
the apply channel, and both partials are reconstructed in memory. -/
theorem setup_partials_spec_witness :
    (setupPartials [⟨1, 7, 0, 4, 9, 0⟩, ⟨1, 7, 5, 9, 9, 0⟩, ⟨2, 3, 1, 2, 5, 0⟩] []).2 =
      [(1, 7)] ∧
    bvGet 7 (bookieForActor
        (setupPartials [⟨1, 7, 0, 4, 9, 0⟩, ⟨1, 7, 5, 9, 9, 0⟩, ⟨2, 3, 1, 2, 5, 0⟩]
          []).1 1) = some (.Partl [(0, 9)] 9 0) := by
  have h := setup_partials_spec
    [⟨1, 7, 0, 4, 9, 0⟩, ⟨1, 7, 5, 9, 9, 0⟩, ⟨2, 3, 1, 2, 5, 0⟩] []
  refine ⟨?_, ?_⟩
  · rw [h.1]
    rfl
  · exact h.2 ((1, 7), ([(0, 9)], 9, 0)) (by decide)
